import Mathlib

/-!
Shallow embedding of the larder inventory tracker (Rust sources:
src/db.rs, src/models.rs, src/schema.rs, src/main.rs, src/labels.rs).

The persistent store (PostgreSQL accessed through diesel) is modelled as
explicit Lean data: the three relations items, aliases and stock are lists
of records, timestamps are naturals, and the i32 ids of the database are
integers.  Each database operation of db.rs becomes a pure function from
the store (plus the current time) to the new store and a result.  The scan
command interpreter of main.rs becomes a step function that returns the
new mode together with the list of external calls (resolver / engine /
sub-flow invocations) the handled event triggers.
-/

namespace Larder

/-- Models `ItemKind` from models.rs (`bought` / `custom`). -/
inductive ItemKind
  | bought
  | custom
deriving DecidableEq, Repr

/-- Models `Item` from models.rs: id (i32 serial), name, kind, optional ean. -/
structure Item where
  id : Int
  name : String
  kind : ItemKind
  ean : Option (List Char)
deriving DecidableEq, Repr

/-- Models `Alias` from models.rs: `ean` is the primary key (schema.rs:
`aliases (ean)`), `alias_for` the code it redirects to. -/
structure Alias where
  ean : List Char
  alias_for : List Char
deriving DecidableEq, Repr

/-- Models `Stock` from models.rs: id (i32 serial primary key), owning
item, added / opened / removed timestamps (timestamptz, opened and
removed nullable). -/
structure Stock where
  id : Int
  item_id : Int
  added_dt : Nat
  opened_dt : Option Nat
  removed_dt : Option Nat
deriving DecidableEq, Repr

/-- The item and alias relations, as seen by the resolver queries. -/
structure Store where
  items : List Item
  aliases : List Alias
deriving DecidableEq, Repr

/-- The stock relation together with the sequence backing the serial
primary key `stock.id`. -/
structure DB where
  stock : List Stock
  nextId : Int
deriving DecidableEq, Repr

/-- The error outcomes surfaced by the engine operations in db.rs:
"item not in stock", "found open item in stock",
"item not in stock or not opened". -/
inductive EngineErr
  | notInStock
  | alreadyOpen
  | notOpen
deriving DecidableEq, Repr

/-- Uniqueness violation reported by the store on a duplicate primary key. -/
inductive DBErr
  | uniqueViolation
deriving DecidableEq, Repr

/-- Models `query_ean_by_alias` (db.rs): look the scanned code up in the
alias table (keyed by `ean`) and return its `alias_for` target, if any. -/
def query_ean_by_alias (st : Store) (alias_ean : List Char) : Option (List Char) :=
  (st.aliases.find? fun a => a.ean = alias_ean).map fun a => a.alias_for

/-- Models `query_item_by_ean` (db.rs): resolve the code through the alias
table once (falling back to the code itself), then fetch the first item
whose `ean` equals the resolved code. -/
def query_item_by_ean (st : Store) (barcode_ean : List Char) : Option Item :=
  let resolved := (query_ean_by_alias st barcode_ean).getD barcode_ean
  st.items.find? fun it => it.ean = some resolved

/-- Models `query_item_by_id` (db.rs): fetch the item with the given id. -/
def query_item_by_id (st : Store) (i : Int) : Option Item :=
  st.items.find? fun it => it.id = i

/-- Models `create_alias` (db.rs) together with the `aliases (ean)` primary
key of schema.rs: inserting a row whose `ean` already exists in the alias
table is a uniqueness violation, returned to the caller as an error. -/
def create_alias (st : Store) (alias_ean item_ean : List Char) :
    Store × Except DBErr Alias :=
  if st.aliases.any fun a => a.ean = alias_ean then
    (st, .error .uniqueViolation)
  else
    ({ st with aliases := st.aliases ++ [⟨alias_ean, item_ean⟩] },
     .ok ⟨alias_ean, item_ean⟩)

/-- Models `add_to_stock` (db.rs): insert a stock row for the item with
`added_dt = now()` and null opened/removed timestamps; the id comes from
the serial sequence. -/
def add_to_stock (db : DB) (itemId : Int) (now : Nat) : DB × Stock :=
  let s : Stock := ⟨db.nextId, itemId, now, none, none⟩
  (⟨db.stock ++ [s], db.nextId + 1⟩, s)

/-- Eligibility filter of the `oldest` CTE used by `remove_from_stock` and
`open_from_stock` (db.rs): same item, not opened, not removed. -/
def unopenedInStock (itemId : Int) (s : Stock) : Prop :=
  s.item_id = itemId ∧ s.opened_dt = none ∧ s.removed_dt = none

instance (itemId : Int) (s : Stock) : Decidable (unopenedInStock itemId s) := by
  unfold unopenedInStock; infer_instance

/-- A unit that is currently open: opened but not removed (the condition
of the `already_open` check in `open_from_stock`). -/
def openInStock (itemId : Int) (s : Stock) : Prop :=
  s.item_id = itemId ∧ s.removed_dt = none ∧ s.opened_dt ≠ none

instance (itemId : Int) (s : Stock) : Decidable (openInStock itemId s) := by
  unfold openInStock; infer_instance

/-- Row filter of the explicit-id branch of `remove_from_stock` (db.rs):
the given stock id, belonging to the given item, not yet removed. -/
def explicitHit (itemId stockId : Int) (s : Stock) : Prop :=
  s.id = stockId ∧ s.item_id = itemId ∧ s.removed_dt = none

instance (itemId stockId : Int) (s : Stock) : Decidable (explicitHit itemId stockId s) := by
  unfold explicitHit; infer_instance

/-- Eligibility filter of the `oldest` CTE in `finish_from_stock` (db.rs):
same item, opened, not removed. -/
def openedInStock (itemId : Int) (s : Stock) : Prop :=
  s.item_id = itemId ∧ s.opened_dt ≠ none ∧ s.removed_dt = none

instance (itemId : Int) (s : Stock) : Decidable (openedInStock itemId s) := by
  unfold openedInStock; infer_instance

/-- `order by <key> asc limit 1`: the first row attaining the minimal key
(earlier rows win ties). -/
def pickOldest (key : Stock → Nat) : List Stock → Option Stock
  | [] => none
  | s :: rest =>
    match pickOldest key rest with
    | none => some s
    | some t => if key t < key s then some t else some s

/-- Set `removed_dt = now()` on the rows with the given primary key. -/
def markRemoved (now : Nat) (sid : Int) (l : List Stock) : List Stock :=
  l.map fun s => if s.id = sid then { s with removed_dt := some now } else s

/-- Set `opened_dt = now()` on the rows with the given primary key. -/
def markOpened (now : Nat) (sid : Int) (l : List Stock) : List Stock :=
  l.map fun s => if s.id = sid then { s with opened_dt := some now } else s

/-- Models `remove_from_stock` (db.rs).  Without an explicit stock id it
runs the `oldest` CTE (oldest unopened, unremoved unit of the item, by
`added_dt`) and sets its `removed_dt`; with an explicit id it updates the
row matching id, item and `removed_dt is null`.  In both cases the update
succeeds iff at least one row was affected, otherwise the result is the
"item not in stock" error and the store is unchanged. -/
def remove_from_stock (db : DB) (itemId : Int) (stockId : Option Int) (now : Nat) :
    DB × Except EngineErr Unit :=
  match stockId with
  | none =>
    match pickOldest (fun s => s.added_dt) (db.stock.filter fun s => decide (unopenedInStock itemId s)) with
    | none => (db, .error .notInStock)
    | some u => (⟨markRemoved now u.id db.stock, db.nextId⟩, .ok ())
  | some sid =>
    if db.stock.any fun s => decide (explicitHit itemId sid s) then
      (⟨db.stock.map fun s => if explicitHit itemId sid s then { s with removed_dt := some now } else s,
        db.nextId⟩, .ok ())
    else (db, .error .notInStock)

/-- Models `open_from_stock` (db.rs): first the `already_open` existence
check (open unit of the item ⇒ fail, nothing mutated), then the `oldest`
CTE over unopened unremoved units by `added_dt`, setting `opened_dt` on
the selected row; no eligible row means "item not in stock". -/
def open_from_stock (db : DB) (itemId : Int) (now : Nat) :
    DB × Except EngineErr Unit :=
  if db.stock.any fun s => decide (openInStock itemId s) then
    (db, .error .alreadyOpen)
  else
    match pickOldest (fun s => s.added_dt) (db.stock.filter fun s => decide (unopenedInStock itemId s)) with
    | none => (db, .error .notInStock)
    | some u => (⟨markOpened now u.id db.stock, db.nextId⟩, .ok ())

/-- Models `finish_from_stock` (db.rs): the `oldest` CTE over opened,
unremoved units of the item ordered by `opened_dt`, setting `removed_dt`
on the selected row; no eligible row means the "not in stock or not
opened" error. -/
def finish_from_stock (db : DB) (itemId : Int) (now : Nat) :
    DB × Except EngineErr Unit :=
  match pickOldest (fun s => s.opened_dt.getD 0) (db.stock.filter fun s => decide (openedInStock itemId s)) with
  | none => (db, .error .notOpen)
  | some u => (⟨markRemoved now u.id db.stock, db.nextId⟩, .ok ())

/-- One engine invocation, carrying the wall-clock instant at which it
runs (`now()` inside the corresponding SQL statement). -/
inductive EngineOp
  | addU (itemId : Int) (now : Nat)
  | removeU (itemId : Int) (stockId : Option Int) (now : Nat)
  | openU (itemId : Int) (now : Nat)
  | finishU (itemId : Int) (now : Nat)
deriving DecidableEq, Repr

/-- Execute one engine operation, keeping the resulting store. -/
def execOp (db : DB) : EngineOp → DB
  | .addU i now => (add_to_stock db i now).1
  | .removeU i sid now => (remove_from_stock db i sid now).1
  | .openU i now => (open_from_stock db i now).1
  | .finishU i now => (finish_from_stock db i now).1

/-- The empty stock store: no rows, serial sequence at 1. -/
def emptyDB : DB := ⟨[], 1⟩

/-- Run a sequence of engine operations from a given store. -/
def runOps (db : DB) (ops : List EngineOp) : DB :=
  ops.foldl execOp db

/-- Number of currently open units of an item: `opened_dt` set and
`removed_dt` null. -/
def openCount (itemId : Int) (l : List Stock) : Nat :=
  l.countP fun s => decide (openedInStock itemId s)

/-- The "at most one open unit per item" invariant. -/
def OpenInv (db : DB) : Prop :=
  ∀ i : Int, openCount i db.stock ≤ 1

/-- Primary-key well-formedness maintained by the serial sequence: stock
ids are pairwise distinct and below the next serial value. -/
def WF (db : DB) : Prop :=
  (db.stock.map Stock.id).Nodup ∧ ∀ s ∈ db.stock, s.id < db.nextId

/-- Models the transaction body of `create_custom` (main.rs): inside one
transaction it inserts `count` stock units for the item and then calls
`print_custom_item_labels`; the closure propagates the print result, so a
print failure makes `conn.transaction` roll back everything while a print
success commits.  `printOk` stands for the outcome of the external label
printing (labels.rs). -/
def create_custom_stock (db : DB) (itemId : Int) (count : Nat) (now : Nat)
    (printOk : Bool) : DB × Bool :=
  let committed := (List.range count).foldl (fun d _ => (add_to_stock d itemId now).1) db
  if printOk then (committed, true) else (db, false)

/-! ### Decimal rendering and parsing

`labels.rs` renders the barcode content with `format!("~{}|{}~", item_id,
id)` (the `Display` form of the two i32 ids) and `main.rs` parses it back
with `try_scan!(line.bytes() => "~{}|{}~", item_id, stock_id)`, where each
`{}` captures the bytes up to the following literal and feeds them to
`i32::from_str`. -/

/-- The ten ASCII digit characters used by `Display` for integers. -/
def digitChar : Nat → Char
  | 0 => '0' | 1 => '1' | 2 => '2' | 3 => '3' | 4 => '4'
  | 5 => '5' | 6 => '6' | 7 => '7' | 8 => '8' | _ => '9'

/-- Numeric value of an ASCII digit, as checked by `i32::from_str`. -/
def digitVal (c : Char) : Option Nat :=
  if '0' ≤ c ∧ c ≤ '9' then some (c.toNat - 48) else none

/-- Decimal digits of `n`, least significant first (empty for 0). -/
def natDigitsRev (n : Nat) : List Char :=
  if h : n = 0 then []
  else digitChar (n % 10) :: natDigitsRev (n / 10)
decreasing_by exact Nat.div_lt_self (Nat.pos_of_ne_zero h) (by norm_num)

/-- `Display` form of a natural number. -/
def natToChars (n : Nat) : List Char :=
  if n = 0 then ['0'] else (natDigitsRev n).reverse

/-- `Display` form of an i32 (minus sign followed by the magnitude when
negative). -/
def intToChars (i : Int) : List Char :=
  if i < 0 then '-' :: natToChars i.natAbs else natToChars i.toNat

/-- One step of the digit accumulator of `from_str`. -/
def parseStep (acc : Option Nat) (c : Char) : Option Nat :=
  match acc, digitVal c with
  | some a, some d => some (a * 10 + d)
  | _, _ => none

/-- Parse an unsigned decimal digit string (empty input is an error). -/
def parseDigits (l : List Char) : Option Nat :=
  if l = [] then none else l.foldl parseStep (some 0)

/-- The i32 range of the database ids. -/
def i32Min : Int := -(2 ^ 31)

/-- Largest i32 value. -/
def i32Max : Int := 2 ^ 31 - 1

/-- Signed decimal value of a character list: an optional leading `+` or
`-` sign followed by decimal digits, as accepted by `i32::from_str`. -/
def parseSigned (l : List Char) : Option Int :=
  match l with
  | [] => none
  | c :: ds =>
    if c = '+' then (parseDigits ds).map Int.ofNat
    else if c = '-' then (parseDigits ds).map fun n => - Int.ofNat n
    else (parseDigits (c :: ds)).map Int.ofNat

/-- Models `i32::from_str`: optional sign, decimal digits, range check. -/
def parseI32 (l : List Char) : Option Int :=
  match parseSigned l with
  | some v => if i32Min ≤ v ∧ v ≤ i32Max then some v else none
  | none => none

/-- Models `LabelContent::from_item_stock` (labels.rs): the barcode
content printed on a custom-item label,
`format!("~{}|{}~", stock.item_id, stock.id)`. -/
def labelCode (itemId unitId : Int) : List Char :=
  '~' :: (intToChars itemId ++ '|' :: (intToChars unitId ++ ['~']))

/-- Models `parse_custom_code` (main.rs): `try_scan!` against the pattern
`~{}|{}~` — a literal `~`, a capture up to the `|` parsed as i32, the
literal `|`, a capture up to the closing `~` parsed as i32, the literal
`~`. -/
def parse_custom_code (l : List Char) : Option (Int × Int) :=
  match l with
  | '~' :: rest =>
    let part1 := rest.takeWhile fun c => c ≠ '|'
    match rest.dropWhile (fun c => c ≠ '|') with
    | '|' :: rest2 =>
      match parseI32 part1 with
      | none => none
      | some a =>
        let part2 := rest2.takeWhile fun c => c ≠ '~'
        match rest2.dropWhile (fun c => c ≠ '~') with
        | '~' :: _ => (parseI32 part2).map fun b => (a, b)
        | _ => none
    | _ => none
  | _ => none

/-! ### Scan command interpreter (main.rs) -/

/-- Models `ScanOp` (main.rs); the Rust variants are None, Register, Add,
Remove, Open, Finish (`open` and `none` are rendered as `openOp` and
`noneOp` because they are reserved in Lean contexts). -/
inductive ScanOp
  | noneOp
  | register
  | add
  | remove
  | openOp
  | finish
deriving DecidableEq, Repr

/-- Models `ScanOp::from_str` (main.rs): the six fixed mode tokens. -/
def scan_op_from_str (s : List Char) : Option ScanOp :=
  if s = ['?', '?', '?'] then some .noneOp
  else if s = ['+', '+', '+'] then some .register
  else if s = ['>', '>', '>'] then some .add
  else if s = ['<', '<', '<'] then some .remove
  else if s = ['/', '/', '/'] then some .openOp
  else if s = ['<', '/', '<'] then some .finish
  else none

/-- Models `IDLE_TIMEOUT` (main.rs): seconds of inactivity after which the
scan op resets. -/
def IDLE_TIMEOUT : Nat := 120

/-- The external calls the interpreter can make while handling one event:
resolver queries, engine operations, and the two interactive sub-flows. -/
inductive Effect
  | queryItemByEan (code : List Char)
  | queryItemById (id : Int)
  | createCustomFlow
  | registerFlow (code : List Char)
  | engineAdd (itemId : Int)
  | engineRemove (itemId : Int) (stockId : Option Int)
  | engineOpen (itemId : Int)
  | engineFinish (itemId : Int)
deriving DecidableEq, Repr

/-- What the consumer loop receives from the input channel: a completed
scan line, or the idle timeout elapsing. -/
inductive RecvEvent
  | line (s : List Char)
  | timeout
deriving DecidableEq, Repr

/-- Models `scanned` (main.rs): resolve the barcode first, then dispatch
on the current op.  `None` only reports; `Register` runs the register
flow; `Add` falls back to the register flow when the barcode is
unresolved (`registerResult` stands for the item that interactive flow
produced, if any) and then adds to stock; `Remove`/`Open`/`Finish` call
the engine only when the barcode resolved. -/
def scanned_calls (st : Store) (op : ScanOp) (code : List Char)
    (registerResult : Option Item) : List Effect :=
  let existing := query_item_by_ean st code
  .queryItemByEan code ::
    match op with
    | .noneOp => []
    | .register => [.registerFlow code]
    | .add =>
      match existing with
      | some it => [.engineAdd it.id]
      | none =>
        .registerFlow code ::
          match registerResult with
          | some it => [.engineAdd it.id]
          | none => []
    | .remove =>
      match existing with
      | some it => [.engineRemove it.id none]
      | none => []
    | .openOp =>
      match existing with
      | some it => [.engineOpen it.id]
      | none => []
    | .finish =>
      match existing with
      | some it => [.engineFinish it.id]
      | none => []

/-- Models one iteration of the consumer loop in `main` (main.rs), in its
priority order: a mode token only changes `op`; the literal `~+~` runs the
custom-item creation flow; a string matching the removal-reference pattern
resolves the item by id and removes that exact unit; anything else is
dispatched as a barcode under the current op.  A receive timeout resets
the op to `None`.  The returned pair is the op for the next iteration and
the external calls made while handling the event. -/
def interp_step (st : Store) (op : ScanOp) (ev : RecvEvent)
    (registerResult : Option Item) : ScanOp × List Effect :=
  match ev with
  | .timeout => (.noneOp, [])
  | .line s =>
    match scan_op_from_str s with
    | some newOp => (newOp, [])
    | none =>
      if s = ['~', '+', '~'] then (op, [.createCustomFlow])
      else
        match parse_custom_code s with
        | some (a, b) =>
          (op, .queryItemById a ::
            match query_item_by_id st a with
            | some _ => [.engineRemove a (some b)]
            | none => [])
        | none => (op, scanned_calls st op s registerResult)

/-! ### Lemmas about the oldest-row selection -/

theorem pickOldest_cons (key : Stock → Nat) (s : Stock) (rest : List Stock) :
    pickOldest key (s :: rest) =
      match pickOldest key rest with
      | none => some s
      | some t => if key t < key s then some t else some s := rfl

theorem pickOldest_eq_none (key : Stock → Nat) :
    ∀ {l : List Stock}, pickOldest key l = none ↔ l = [] := by
  intro l
  cases l with
  | nil => simp [pickOldest]
  | cons s rest =>
    simp only [pickOldest_cons]
    constructor
    · intro h
      cases hpp : pickOldest key rest with
      | none => simp [hpp] at h
      | some t => by_cases hlt : key t < key s <;> simp [hpp, hlt] at h
    · intro h; cases h

theorem pickOldest_mem (key : Stock → Nat) :
    ∀ {l : List Stock} {u : Stock}, pickOldest key l = some u → u ∈ l := by
  intro l
  induction l with
  | nil => intro u h; simp [pickOldest] at h
  | cons s rest ih =>
    intro u h
    cases hr : pickOldest key rest with
    | none =>
      simp only [pickOldest_cons, hr] at h
      cases h; exact List.mem_cons_self _ _
    | some t =>
      simp only [pickOldest_cons, hr] at h
      by_cases hlt : key t < key s
      · rw [if_pos hlt] at h
        cases h
        exact List.mem_cons_of_mem _ (ih hr)
      · rw [if_neg hlt] at h
        cases h
        exact List.mem_cons_self _ _

theorem pickOldest_min (key : Stock → Nat) :
    ∀ {l : List Stock} {u : Stock}, pickOldest key l = some u →
      ∀ v ∈ l, key u ≤ key v := by
  intro l
  induction l with
  | nil => intro u h; simp [pickOldest] at h
  | cons s rest ih =>
    intro u h v hv
    cases hr : pickOldest key rest with
    | none =>
      simp only [pickOldest_cons, hr] at h
      cases h
      have hrest : rest = [] := (pickOldest_eq_none key).1 hr
      subst hrest
      rcases List.mem_cons.1 hv with rfl | hv
      · exact le_refl _
      · simp at hv
    | some t =>
      simp only [pickOldest_cons, hr] at h
      by_cases hlt : key t < key s
      · rw [if_pos hlt] at h
        cases h
        rcases List.mem_cons.1 hv with rfl | hv
        · exact le_of_lt hlt
        · exact ih hr v hv
      · rw [if_neg hlt] at h
        cases h
        rcases List.mem_cons.1 hv with rfl | hv
        · exact le_refl _
        · exact le_trans (not_lt.1 hlt) (ih hr v hv)

/-! ### List helper lemmas -/

theorem nodupIds_eq_of_id_eq {l : List Stock} (h : (l.map Stock.id).Nodup)
    {u v : Stock} (hu : u ∈ l) (hv : v ∈ l) (hid : u.id = v.id) : u = v :=
  List.inj_on_of_nodup_map h hu hv hid

theorem countP_id_le_one {l : List Stock} (h : (l.map Stock.id).Nodup) (v : Int) :
    (l.countP fun s => decide (s.id = v)) ≤ 1 := by
  induction l with
  | nil => simp
  | cons s rest ih =>
    simp only [List.map_cons, List.nodup_cons] at h
    by_cases hs : s.id = v
    · rw [List.countP_cons_of_pos _ _ (by exact decide_eq_true hs)]
      have hzero : (rest.countP fun t => decide (t.id = v)) = 0 := by
        rw [List.countP_eq_zero]
        intro t ht
        simp only [decide_eq_true_eq]
        intro htv
        apply h.1
        have : t.id ∈ rest.map Stock.id := List.mem_map_of_mem Stock.id ht
        rwa [htv, ← hs] at this
      omega
    · rw [List.countP_cons_of_neg _ _ (by simp [hs])]
      exact ih h.2

theorem takeWhile_append_of_break (p : Char → Bool) (l1 : List Char) (c : Char)
    (l2 : List Char) (h : ∀ x ∈ l1, p x = true) (hc : p c = false) :
    (l1 ++ c :: l2).takeWhile p = l1 ∧ (l1 ++ c :: l2).dropWhile p = c :: l2 := by
  induction l1 with
  | nil => simp [List.takeWhile_cons, List.dropWhile_cons, hc]
  | cons a as ih =>
    have ha : p a = true := h a (List.mem_cons_self _ _)
    have ih2 := ih fun x hx => h x (List.mem_cons_of_mem _ hx)
    simp [List.takeWhile_cons, List.dropWhile_cons, ha, ih2.1, ih2.2]

theorem filter_eq_nil_iff_no_elig (itemId : Int) (l : List Stock) :
    (l.filter fun s => decide (unopenedInStock itemId s)) = [] ↔
      ¬ ∃ v ∈ l, unopenedInStock itemId v := by
  rw [List.filter_eq_nil_iff]
  simp

/-! ### Theorems -/

/-- C2: `removeUnit` without an explicit unit id succeeds iff the item has
a unit with `openedAt == null` and `removedAt == null`; on failure it
returns `NotInStock` and leaves the store unchanged; on success the unit
whose `removedAt` it sets is one of the item's unopened available units
with the smallest `addedAt`; and for two units added at t1 < t2 the first
call removes the t1 unit and a second call removes the t2 unit. -/
theorem removeUnit_fifo_spec (db : DB) (itemId : Int) (now : Nat) :
    (((remove_from_stock db itemId none now).2 = .ok ()) ↔
        ∃ v ∈ db.stock, unopenedInStock itemId v)
    ∧ ((¬ ∃ v ∈ db.stock, unopenedInStock itemId v) →
        remove_from_stock db itemId none now = (db, .error .notInStock))
    ∧ ((remove_from_stock db itemId none now).2 = .ok () →
        ∃ u ∈ db.stock, unopenedInStock itemId u
          ∧ (∀ v ∈ db.stock, unopenedInStock itemId v → u.added_dt ≤ v.added_dt)
          ∧ (remove_from_stock db itemId none now).1.stock = markRemoved now u.id db.stock)
    ∧ (∀ (i1 i2 : Int) (t1 t2 n1 n2 : Nat) (nid : Int), i1 ≠ i2 → t1 < t2 →
        remove_from_stock ⟨[⟨i1, itemId, t1, none, none⟩, ⟨i2, itemId, t2, none, none⟩], nid⟩
            itemId none n1
          = (⟨[⟨i1, itemId, t1, none, some n1⟩, ⟨i2, itemId, t2, none, none⟩], nid⟩, .ok ())
        ∧ remove_from_stock ⟨[⟨i1, itemId, t1, none, some n1⟩, ⟨i2, itemId, t2, none, none⟩], nid⟩
            itemId none n2
          = (⟨[⟨i1, itemId, t1, none, some n1⟩, ⟨i2, itemId, t2, none, some n2⟩], nid⟩, .ok ())) := by
  refine ⟨?_, ?_, ?_, ?_⟩
  · cases hsel : pickOldest (fun s => s.added_dt)
        (db.stock.filter fun s => decide (unopenedInStock itemId s)) with
    | none =>
      have hnil := (pickOldest_eq_none _).1 hsel
      have hno := (filter_eq_nil_iff_no_elig itemId db.stock).1 hnil
      simp [remove_from_stock, hsel, hno]
    | some u =>
      have hmem := List.mem_filter.1 (pickOldest_mem _ hsel)
      simp [remove_from_stock, hsel]
      exact ⟨u, hmem.1, of_decide_eq_true hmem.2⟩
  · intro hno
    have hnil := (filter_eq_nil_iff_no_elig itemId db.stock).2 hno
    have hsel : pickOldest (fun s => s.added_dt)
        (db.stock.filter fun s => decide (unopenedInStock itemId s)) = none := by
      rw [hnil]; rfl
    simp [remove_from_stock, hsel]
  · intro hok
    cases hsel : pickOldest (fun s => s.added_dt)
        (db.stock.filter fun s => decide (unopenedInStock itemId s)) with
    | none => simp [remove_from_stock, hsel] at hok
    | some u =>
      have hmem := List.mem_filter.1 (pickOldest_mem _ hsel)
      refine ⟨u, hmem.1, of_decide_eq_true hmem.2, ?_, ?_⟩
      · intro v hv hev
        exact pickOldest_min _ hsel v (List.mem_filter.2 ⟨hv, decide_eq_true hev⟩)
      · simp [remove_from_stock, hsel]
  · intro i1 i2 t1 t2 n1 n2 nid h12 ht
    have hn : ¬ (t2 < t1) := by omega
    have h21 : i2 ≠ i1 := fun h => h12 h.symm
    constructor
    · simp [remove_from_stock, List.filter, unopenedInStock, pickOldest, hn, markRemoved, h21]
    · simp only [remove_from_stock, List.filter, unopenedInStock, pickOldest, markRemoved]
      simp [h21]
      intro h
      exact absurd h h12

/-- C3: `openUnit` fails with `AlreadyOpen`, mutating nothing, when the
item already has a unit with `openedAt != null` and `removedAt == null`;
otherwise it succeeds iff an unopened available unit exists (failing with
`NotInStock` and mutating nothing when none does), and on success it sets
`openedAt` on a unit with the smallest `addedAt` among the item's
unopened available units. -/
theorem openUnit_spec (db : DB) (itemId : Int) (now : Nat) :
    ((∃ s ∈ db.stock, openInStock itemId s) →
        open_from_stock db itemId now = (db, .error .alreadyOpen))
    ∧ ((¬ ∃ s ∈ db.stock, openInStock itemId s) →
        (((open_from_stock db itemId now).2 = .ok ()) ↔
            ∃ v ∈ db.stock, unopenedInStock itemId v)
        ∧ ((¬ ∃ v ∈ db.stock, unopenedInStock itemId v) →
            open_from_stock db itemId now = (db, .error .notInStock))
        ∧ ((open_from_stock db itemId now).2 = .ok () →
            ∃ u ∈ db.stock, unopenedInStock itemId u
              ∧ (∀ v ∈ db.stock, unopenedInStock itemId v → u.added_dt ≤ v.added_dt)
              ∧ (open_from_stock db itemId now).1.stock = markOpened now u.id db.stock)) := by
  constructor
  · intro hopen
    have hany : (db.stock.any fun s => decide (openInStock itemId s)) = true := by
      rcases hopen with ⟨s, hs, hos⟩
      exact List.any_eq_true.2 ⟨s, hs, decide_eq_true hos⟩
    simp [open_from_stock, hany]
  · intro hnone
    have hany : (db.stock.any fun s => decide (openInStock itemId s)) = false := by
      rw [Bool.eq_false_iff]
      intro hc
      rcases List.any_eq_true.1 hc with ⟨s, hs, hos⟩
      exact hnone ⟨s, hs, of_decide_eq_true hos⟩
    refine ⟨?_, ?_, ?_⟩
    · cases hsel : pickOldest (fun s => s.added_dt)
          (db.stock.filter fun s => decide (unopenedInStock itemId s)) with
      | none =>
        have hnil := (pickOldest_eq_none _).1 hsel
        have hno := (filter_eq_nil_iff_no_elig itemId db.stock).1 hnil
        simp [open_from_stock, hany, hsel, hno]
      | some u =>
        have hmem := List.mem_filter.1 (pickOldest_mem _ hsel)
        simp [open_from_stock, hany, hsel]
        exact ⟨u, hmem.1, of_decide_eq_true hmem.2⟩
    · intro hno
      have hnil := (filter_eq_nil_iff_no_elig itemId db.stock).2 hno
      have hsel : pickOldest (fun s => s.added_dt)
          (db.stock.filter fun s => decide (unopenedInStock itemId s)) = none := by
        rw [hnil]; rfl
      simp [open_from_stock, hany, hsel]
    · intro hok
      cases hsel : pickOldest (fun s => s.added_dt)
          (db.stock.filter fun s => decide (unopenedInStock itemId s)) with
      | none => simp [open_from_stock, hany, hsel] at hok
      | some u =>
        have hmem := List.mem_filter.1 (pickOldest_mem _ hsel)
        refine ⟨u, hmem.1, of_decide_eq_true hmem.2, ?_, ?_⟩
        · intro v hv hev
          exact pickOldest_min _ hsel v (List.mem_filter.2 ⟨hv, decide_eq_true hev⟩)
        · simp [open_from_stock, hany, hsel]

/-- C5: `removeUnit` with an explicit unit id succeeds exactly when the
store has a unit with that id belonging to the item with `removedAt ==
null` (open or not); it then sets that unit's `removedAt` and leaves all
other units untouched; in every other case it fails with `NotInStock` and
changes nothing. -/
theorem removeUnit_explicit_spec (db : DB) (itemId sid : Int) (now : Nat) :
    ((∃ u ∈ db.stock, explicitHit itemId sid u) →
        (remove_from_stock db itemId (some sid) now).2 = .ok ()
        ∧ (remove_from_stock db itemId (some sid) now).1.stock
            = db.stock.map
                (fun s => if explicitHit itemId sid s then { s with removed_dt := some now } else s)
        ∧ (∀ u ∈ db.stock, explicitHit itemId sid u →
            { u with removed_dt := some now } ∈ (remove_from_stock db itemId (some sid) now).1.stock)
        ∧ (∀ u ∈ db.stock, ¬ explicitHit itemId sid u →
            u ∈ (remove_from_stock db itemId (some sid) now).1.stock))
    ∧ ((¬ ∃ u ∈ db.stock, explicitHit itemId sid u) →
        remove_from_stock db itemId (some sid) now = (db, .error .notInStock)) := by
  constructor
  · intro hex
    have hany : (db.stock.any fun s => decide (explicitHit itemId sid s)) = true := by
      rcases hex with ⟨u, hu, hh⟩
      exact List.any_eq_true.2 ⟨u, hu, decide_eq_true hh⟩
    refine ⟨by simp [remove_from_stock, hany], by simp [remove_from_stock, hany], ?_, ?_⟩
    · intro u hu hh
      have : ({ u with removed_dt := some now } : Stock)
          = (fun s => if explicitHit itemId sid s then { s with removed_dt := some now } else s) u := by
        simp [if_pos hh]
      rw [this]
      simp only [remove_from_stock, hany, if_true]
      exact List.mem_map_of_mem _ hu
    · intro u hu hh
      have : u = (fun s => if explicitHit itemId sid s then { s with removed_dt := some now } else s) u := by
        simp [if_neg hh]
      rw [this]
      simp only [remove_from_stock, hany, if_true]
      exact List.mem_map_of_mem _ hu
  · intro hno
    have hany : (db.stock.any fun s => decide (explicitHit itemId sid s)) = false := by
      rw [Bool.eq_false_iff]
      intro hc
      rcases List.any_eq_true.1 hc with ⟨u, hu, hh⟩
      exact hno ⟨u, hu, of_decide_eq_true hh⟩
    simp [remove_from_stock, hany]

/-! ### Preservation of the at-most-one-open invariant -/

theorem openInStock_iff_openedInStock (i : Int) (s : Stock) :
    openInStock i s ↔ openedInStock i s := by
  unfold openInStock openedInStock
  tauto

theorem map_id_of_update (l : List Stock) (f : Stock → Stock)
    (hf : ∀ s, (f s).id = s.id) : (l.map f).map Stock.id = l.map Stock.id := by
  rw [List.map_map]
  exact List.map_congr_left fun s _ => hf s

theorem openCount_markRemoved_le (i : Int) (now : Nat) (sid : Int) (l : List Stock) :
    openCount i (markRemoved now sid l) ≤ openCount i l := by
  unfold openCount markRemoved
  rw [List.countP_map]
  apply List.countP_mono_left
  intro s _ hp
  simp only [Function.comp_apply] at hp
  by_cases h : s.id = sid
  · rw [if_pos h] at hp
    have := of_decide_eq_true hp
    simp [openedInStock] at this
  · rwa [if_neg h] at hp

theorem openCount_explicitUpdate_le (i itemId sid : Int) (now : Nat) (l : List Stock) :
    openCount i (l.map fun s =>
        if explicitHit itemId sid s then { s with removed_dt := some now } else s)
      ≤ openCount i l := by
  unfold openCount
  rw [List.countP_map]
  apply List.countP_mono_left
  intro s _ hp
  simp only [Function.comp_apply] at hp
  by_cases h : explicitHit itemId sid s
  · rw [if_pos h] at hp
    have := of_decide_eq_true hp
    simp [openedInStock] at this
  · rwa [if_neg h] at hp

theorem openCount_markOpened_le (i itemId : Int) (now : Nat) (u : Stock) (l : List Stock)
    (hnodup : (l.map Stock.id).Nodup) (hu : u ∈ l) (huitem : u.item_id = itemId)
    (hguard : ∀ s ∈ l, ¬ openInStock itemId s) (hinv : openCount i l ≤ 1) :
    openCount i (markOpened now u.id l) ≤ 1 := by
  by_cases hi : i = itemId
  · unfold openCount markOpened
    rw [List.countP_map]
    calc l.countP ((fun s => decide (openedInStock i s)) ∘
            fun s => if s.id = u.id then { s with opened_dt := some now } else s)
          ≤ l.countP fun s => decide (s.id = u.id) := by
          apply List.countP_mono_left
          intro s hs hp
          simp only [Function.comp_apply] at hp
          by_cases h : s.id = u.id
          · exact decide_eq_true h
          · rw [if_neg h] at hp
            rw [hi] at hp
            exact absurd ((openInStock_iff_openedInStock itemId s).2 (of_decide_eq_true hp))
              (hguard s hs)
      _ ≤ 1 := countP_id_le_one hnodup u.id
  · have heq : openCount i (markOpened now u.id l) = openCount i l := by
      unfold openCount markOpened
      rw [List.countP_map]
      apply List.countP_congr
      intro s hs
      simp only [Function.comp_apply]
      by_cases h : s.id = u.id
      · have hsu : s = u := nodupIds_eq_of_id_eq hnodup hs hu h
        subst hsu
        rw [if_pos h]
        have hno1 : ¬ openedInStock i ({ s with opened_dt := some now } : Stock) := by
          intro hc
          exact hi (hc.1.symm.trans huitem ▸ rfl)
        have hno2 : ¬ openedInStock i s := by
          intro hc
          exact hi (hc.1.symm.trans huitem ▸ rfl)
        simp [hno1, hno2]
      · rw [if_neg h]
    rw [heq]
    exact hinv

theorem WF_update (db : DB) (f : Stock → Stock) (hf : ∀ s, (f s).id = s.id)
    (hwf : WF db) : WF ⟨db.stock.map f, db.nextId⟩ := by
  constructor
  · show ((db.stock.map f).map Stock.id).Nodup
    rw [map_id_of_update db.stock f hf]
    exact hwf.1
  · intro s hs
    rcases List.mem_map.1 hs with ⟨t, ht, rfl⟩
    rw [hf t]
    exact hwf.2 t ht

theorem WF_add (db : DB) (itemId : Int) (now : Nat) (hwf : WF db) :
    WF (add_to_stock db itemId now).1 := by
  constructor
  · show ((db.stock ++ [(⟨db.nextId, itemId, now, none, none⟩ : Stock)]).map Stock.id).Nodup
    rw [List.map_append]
    rw [List.nodup_append]
    refine ⟨hwf.1, List.nodup_singleton _, ?_⟩
    intro x hx hx1
    rcases List.mem_map.1 hx with ⟨t, ht, rfl⟩
    have h2 := hwf.2 t ht
    simp at hx1
    omega
  · intro s hs
    rcases List.mem_append.1 hs with hs | hs
    · have := hwf.2 s hs
      show s.id < db.nextId + 1
      omega
    · simp only [List.mem_singleton] at hs
      subst hs
      show db.nextId < db.nextId + 1
      omega

theorem execOp_preserves (db : DB) (op : EngineOp) (hwf : WF db) (hinv : OpenInv db) :
    WF (execOp db op) ∧ OpenInv (execOp db op) := by
  cases op with
  | addU itemId now =>
    refine ⟨WF_add db itemId now hwf, ?_⟩
    intro i
    show openCount i (db.stock ++ [(⟨db.nextId, itemId, now, none, none⟩ : Stock)]) ≤ 1
    unfold openCount
    rw [List.countP_append]
    have : List.countP (fun s => decide (openedInStock i s)) [(⟨db.nextId, itemId, now, none, none⟩ : Stock)] = 0 := by
      simp [openedInStock]
    rw [this]
    simpa using hinv i
  | removeU itemId sid now =>
    cases sid with
    | none =>
      show WF (remove_from_stock db itemId none now).1 ∧ OpenInv (remove_from_stock db itemId none now).1
      cases hsel : pickOldest (fun s => s.added_dt)
          (db.stock.filter fun s => decide (unopenedInStock itemId s)) with
      | none =>
        have hid : (remove_from_stock db itemId none now).1 = db := by
          simp [remove_from_stock, hsel]
        rw [hid]
        exact ⟨hwf, hinv⟩
      | some u =>
        simp only [remove_from_stock, hsel]
        refine ⟨WF_update db _ ?_ hwf, ?_⟩
        · intro s
          by_cases h : s.id = u.id <;> simp [markRemoved, h]
        · intro i
          exact le_trans (openCount_markRemoved_le i now u.id db.stock) (hinv i)
    | some sid =>
      show WF (remove_from_stock db itemId (some sid) now).1
          ∧ OpenInv (remove_from_stock db itemId (some sid) now).1
      by_cases hany : (db.stock.any fun s => decide (explicitHit itemId sid s)) = true
      · simp only [remove_from_stock, hany, if_true]
        refine ⟨WF_update db _ ?_ hwf, ?_⟩
        · intro s
          by_cases h : explicitHit itemId sid s <;> simp [h]
        · intro i
          exact le_trans (openCount_explicitUpdate_le i itemId sid now db.stock) (hinv i)
      · rw [Bool.not_eq_true] at hany
        have hid : (remove_from_stock db itemId (some sid) now).1 = db := by
          simp [remove_from_stock, hany]
        rw [hid]
        exact ⟨hwf, hinv⟩
  | openU itemId now =>
    show WF (open_from_stock db itemId now).1 ∧ OpenInv (open_from_stock db itemId now).1
    by_cases hany : (db.stock.any fun s => decide (openInStock itemId s)) = true
    · have hid : (open_from_stock db itemId now).1 = db := by
        simp [open_from_stock, hany]
      rw [hid]
      exact ⟨hwf, hinv⟩
    · rw [Bool.not_eq_true] at hany
      cases hsel : pickOldest (fun s => s.added_dt)
          (db.stock.filter fun s => decide (unopenedInStock itemId s)) with
      | none =>
        have hid : (open_from_stock db itemId now).1 = db := by
          simp [open_from_stock, hany, hsel]
        rw [hid]
        exact ⟨hwf, hinv⟩
      | some u =>
        simp only [open_from_stock, hany, Bool.false_eq_true, if_false, hsel]
        have hmem := List.mem_filter.1 (pickOldest_mem _ hsel)
        have helig := of_decide_eq_true hmem.2
        have hguard : ∀ s ∈ db.stock, ¬ openInStock itemId s := by
          intro s hs hc
          have : (db.stock.any fun s => decide (openInStock itemId s)) = true :=
            List.any_eq_true.2 ⟨s, hs, decide_eq_true hc⟩
          rw [hany] at this
          exact Bool.false_ne_true this
        refine ⟨WF_update db _ ?_ hwf, ?_⟩
        · intro s
          by_cases h : s.id = u.id <;> simp [markOpened, h]
        · intro i
          exact openCount_markOpened_le i itemId now u db.stock hwf.1 hmem.1 helig.1
            hguard (hinv i)
  | finishU itemId now =>
    show WF (finish_from_stock db itemId now).1 ∧ OpenInv (finish_from_stock db itemId now).1
    cases hsel : pickOldest (fun s => s.opened_dt.getD 0)
        (db.stock.filter fun s => decide (openedInStock itemId s)) with
    | none =>
      have hid : (finish_from_stock db itemId now).1 = db := by
        simp [finish_from_stock, hsel]
      rw [hid]
      exact ⟨hwf, hinv⟩
    | some u =>
      simp only [finish_from_stock, hsel]
      refine ⟨WF_update db _ ?_ hwf, ?_⟩
      · intro s
        by_cases h : s.id = u.id <;> simp [markRemoved, h]
      · intro i
        exact le_trans (openCount_markRemoved_le i now u.id db.stock) (hinv i)

theorem runOps_preserves (ops : List EngineOp) :
    ∀ db : DB, WF db → OpenInv db → WF (runOps db ops) ∧ OpenInv (runOps db ops) := by
  induction ops with
  | nil => intro db hwf hinv; exact ⟨hwf, hinv⟩
  | cons op rest ih =>
    intro db hwf hinv
    have h1 := execOp_preserves db op hwf hinv
    simpa [runOps, List.foldl_cons] using ih (execOp db op) h1.1 h1.2

theorem WF_emptyDB : WF emptyDB := by
  constructor
  · simp [emptyDB]
  · intro s hs
    simp [emptyDB] at hs

theorem OpenInv_emptyDB : OpenInv emptyDB := by
  intro i
  simp [openCount, emptyDB]

/-- C1: every engine operation (`addUnit`, `removeUnit` with or without an
explicit unit id, `openUnit`, `finishUnit`) preserves the invariant that
each item has at most one unit with `openedAt != null` and `removedAt ==
null`, and after any sequence of such operations from the empty store the
invariant holds. -/
theorem engine_at_most_one_open :
    (∀ (db : DB) (op : EngineOp), WF db → OpenInv db →
        WF (execOp db op) ∧ OpenInv (execOp db op))
    ∧ ∀ (ops : List EngineOp) (i : Int), openCount i (runOps emptyDB ops).stock ≤ 1 :=
  ⟨execOp_preserves,
   fun ops i => (runOps_preserves ops emptyDB WF_emptyDB OpenInv_emptyDB).2 i⟩

/-- Witness for C1: the hypotheses are satisfiable — the invariant
preservation applies to a concrete add operation on the empty store. -/
theorem engine_at_most_one_open_w :
    WF (execOp emptyDB (.addU 5 3)) ∧ OpenInv (execOp emptyDB (.addU 5 3)) :=
  engine_at_most_one_open.1 emptyDB (.addU 5 3) WF_emptyDB OpenInv_emptyDB

/-- Witness for C2: the FIFO scenario at concrete inputs — two units of
item 7 added at times 3 < 4; the id-less removal marks the older one. -/
theorem removeUnit_fifo_spec_w :
    remove_from_stock ⟨[⟨1, 7, 3, none, none⟩, ⟨2, 7, 4, none, none⟩], 3⟩ 7 none 9
        = (⟨[⟨1, 7, 3, none, some 9⟩, ⟨2, 7, 4, none, none⟩], 3⟩, .ok ())
      ∧ remove_from_stock ⟨[⟨1, 7, 3, none, some 9⟩, ⟨2, 7, 4, none, none⟩], 3⟩ 7 none 11
        = (⟨[⟨1, 7, 3, none, some 9⟩, ⟨2, 7, 4, none, some 11⟩], 3⟩, .ok ()) :=
  (removeUnit_fifo_spec ⟨[], 1⟩ 7 0).2.2.2 1 2 3 4 9 11 3 (by decide) (by decide)

/-- Witness for C3: opening item 7 while one of its units is already open
fails with `AlreadyOpen` and mutates nothing. -/
theorem openUnit_spec_w :
    open_from_stock ⟨[⟨1, 7, 3, some 4, none⟩], 2⟩ 7 9
      = (⟨[⟨1, 7, 3, some 4, none⟩], 2⟩, .error .alreadyOpen) :=
  (openUnit_spec ⟨[⟨1, 7, 3, some 4, none⟩], 2⟩ 7 9).1 (by decide)

/-- Witness for C5: removing an open unit by its explicit id succeeds. -/
theorem removeUnit_explicit_spec_w :
    (remove_from_stock ⟨[⟨1, 7, 3, some 4, none⟩], 2⟩ 7 (some 1) 9).2 = .ok () :=
  ((removeUnit_explicit_spec ⟨[⟨1, 7, 3, some 4, none⟩], 2⟩ 7 1 9).1 (by decide)).1

/-! ### Custom-item creation flow (C4) -/

theorem create_custom_addLoop_length (itemId : Int) (now : Nat) :
    ∀ (count : Nat) (db : DB),
      ((List.range count).foldl (fun d _ => (add_to_stock d itemId now).1) db).stock.length
        = db.stock.length + count := by
  intro count
  induction count with
  | zero => intro db; simp
  | succ n ih =>
    intro db
    rw [List.range_succ, List.foldl_append]
    simp only [List.foldl_cons, List.foldl_nil]
    have hadd : ∀ d : DB, ((add_to_stock d itemId now).1).stock.length = d.stock.length + 1 := by
      intro d
      simp [add_to_stock]
    rw [hadd, ih db]
    omega

/-- Counterexample for C4: in the custom-item creation flow a failing
label print rolls the stock mutation back — starting from the empty store
with one unit requested, after a print failure the store holds no units
(the claim asserts the created units remain), while the same run with a
successful print holds one. -/
theorem create_custom_print_failure_cex :
    (create_custom_stock emptyDB 4 1 9 false).1.stock = []
      ∧ (create_custom_stock emptyDB 4 1 9 false).2 = false
      ∧ (create_custom_stock emptyDB 4 1 9 true).1.stock
          = [⟨1, 4, 9, none, none⟩] := by
  refine ⟨rfl, rfl, ?_⟩
  simp [create_custom_stock, emptyDB, add_to_stock, List.range_succ]

/-- C4 (amended): stock creation and label printing in the custom-item
flow are atomic — a print failure rolls back the created units, leaving
the store unchanged, while a successful print commits exactly `count` new
units. -/
theorem create_custom_atomic (db : DB) (itemId : Int) (count : Nat) (now : Nat) :
    (create_custom_stock db itemId count now false).1 = db
      ∧ (create_custom_stock db itemId count now true).1.stock.length
          = db.stock.length + count := by
  constructor
  · rfl
  · show ((List.range count).foldl (fun d _ => (add_to_stock d itemId now).1) db).stock.length = _
    exact create_custom_addLoop_length itemId now count db

/-! ### Alias creation and resolution (C6, C7) -/

/-- Counterexample for C6: a store whose only item has canonical code "B"
and whose alias table is empty; `createAlias("B", "C")` succeeds even
though "B" already exists as an item's canonical code, where the claim
demands a uniqueness failure. -/
theorem createAlias_item_code_cex :
    (∃ it ∈ (⟨[⟨1, "Milk", .bought, some ['B']⟩], []⟩ : Store).items, it.ean = some ['B'])
      ∧ (create_alias ⟨[⟨1, "Milk", .bought, some ['B']⟩], []⟩ ['B'] ['C']).2
          = .ok ⟨['B'], ['C']⟩ :=
  ⟨by decide, rfl⟩

/-- C6 (amended): `createAlias` fails with a uniqueness violation iff the
code already exists as an alias (the `aliases (ean)` primary key); the
failure is returned to the caller, and the store is unchanged by it; a
code that exists only as an item's canonical code does not block the
insertion, which appends the alias row and returns it. -/
theorem createAlias_unique_spec (st : Store) (c t : List Char) :
    ((∃ a ∈ st.aliases, a.ean = c) →
        create_alias st c t = (st, .error .uniqueViolation))
    ∧ ((¬ ∃ a ∈ st.aliases, a.ean = c) →
        create_alias st c t
          = ({ st with aliases := st.aliases ++ [⟨c, t⟩] }, .ok ⟨c, t⟩)) := by
  constructor
  · intro hex
    have hany : (st.aliases.any fun a => decide (a.ean = c)) = true := by
      rcases hex with ⟨a, ha, hac⟩
      exact List.any_eq_true.2 ⟨a, ha, decide_eq_true hac⟩
    simp [create_alias, hany]
  · intro hno
    have hany : (st.aliases.any fun a => decide (a.ean = c)) = false := by
      rw [Bool.eq_false_iff]
      intro hc
      rcases List.any_eq_true.1 hc with ⟨a, ha, hac⟩
      exact hno ⟨a, ha, of_decide_eq_true hac⟩
    simp [create_alias, hany]

/-- Witness for C6 (amended): creating alias "A" → "B" in a store with an
empty alias table succeeds and appends the row. -/
theorem createAlias_unique_spec_w :
    create_alias ⟨[], []⟩ ['A'] ['B']
      = (⟨[], [⟨['A'], ['B']⟩]⟩, .ok ⟨['A'], ['B']⟩) :=
  (createAlias_unique_spec ⟨[], []⟩ ['A'] ['B']).2 (by decide)

/-- C7: when the alias table maps A to B, the data-model invariant that no
alias targets another alias key holds, and X is the item found by
canonical code B, then `resolveByCode(A)` and `resolveByCode(B)` both
return X, resolution of A is exactly the one-level direct item lookup of
B (the target is never re-resolved as an alias), and the item returned
for A never has code A. -/
theorem resolve_alias_spec (st : Store) (A B : List Char) (X : Item)
    (hfind : (st.aliases.find? fun a => decide (a.ean = A)) = some ⟨A, B⟩)
    (hdepth : ∀ a ∈ st.aliases, ∀ a2 ∈ st.aliases, a2.ean ≠ a.alias_for)
    (hitem : (st.items.find? fun it => decide (it.ean = some B)) = some X) :
    query_item_by_ean st A = some X
    ∧ query_item_by_ean st B = some X
    ∧ query_item_by_ean st A = st.items.find? (fun it => decide (it.ean = some B))
    ∧ X.ean ≠ some A := by
  have hmem : (⟨A, B⟩ : Alias) ∈ st.aliases := List.mem_of_find?_eq_some hfind
  have hBnokey : (st.aliases.find? fun a => decide (a.ean = B)) = none := by
    rw [List.find?_eq_none]
    intro a ha
    simp only [decide_eq_true_eq]
    exact hdepth ⟨A, B⟩ hmem a ha
  have hresA : query_item_by_ean st A = st.items.find? fun it => decide (it.ean = some B) := by
    unfold query_item_by_ean query_ean_by_alias
    rw [hfind]
    rfl
  have hresB : query_item_by_ean st B = st.items.find? fun it => decide (it.ean = some B) := by
    unfold query_item_by_ean query_ean_by_alias
    rw [hBnokey]
    rfl
  have hXean : X.ean = some B := by
    have := List.find?_some hitem
    simpa using this
  have hAB : A ≠ B := by
    intro h
    exact hdepth ⟨A, B⟩ hmem ⟨A, B⟩ hmem (by simpa using h)
  refine ⟨hresA.trans hitem, hresB.trans hitem, hresA, ?_⟩
  rw [hXean]
  intro h
  exact hAB (by simpa using h.symm)

/-- Witness for C7: concrete store with alias "A" → "B" and a single item
with canonical code "B". -/
theorem resolve_alias_spec_w :
    query_item_by_ean ⟨[⟨1, "Milk", .bought, some ['B']⟩], [⟨['A'], ['B']⟩]⟩ ['A']
        = some ⟨1, "Milk", .bought, some ['B']⟩
      ∧ query_item_by_ean ⟨[⟨1, "Milk", .bought, some ['B']⟩], [⟨['A'], ['B']⟩]⟩ ['B']
        = some ⟨1, "Milk", .bought, some ['B']⟩
      ∧ query_item_by_ean ⟨[⟨1, "Milk", .bought, some ['B']⟩], [⟨['A'], ['B']⟩]⟩ ['A']
        = (⟨[⟨1, "Milk", .bought, some ['B']⟩], [⟨['A'], ['B']⟩]⟩ : Store).items.find?
            (fun it => decide (it.ean = some ['B']))
      ∧ (⟨1, "Milk", .bought, some ['B']⟩ : Item).ean ≠ some ['A'] :=
  resolve_alias_spec ⟨[⟨1, "Milk", .bought, some ['B']⟩], [⟨['A'], ['B']⟩]⟩ ['A'] ['B']
    ⟨1, "Milk", .bought, some ['B']⟩ (by decide) (by decide) (by decide)

/-! ### Interpreter theorems (C8, C9) -/

/-- C8: a scan string matching one of the six mode tokens sets the mode to
the corresponding `ScanOp` and triggers no resolver or engine call, and
feeding the same token again leaves the mode at that value, again with no
external call. -/
theorem mode_token_spec (st : Store) (op : ScanOp) (reg : Option Item)
    (s : List Char) (o : ScanOp) (h : scan_op_from_str s = some o) :
    interp_step st op (.line s) reg = (o, [])
    ∧ interp_step st (interp_step st op (.line s) reg).1 (.line s) reg = (o, []) := by
  constructor <;> simp [interp_step, h]

/-- Witness for C8: the token `+++` switches any state to `Register`. -/
theorem mode_token_spec_w :
    interp_step ⟨[], []⟩ .noneOp (.line ['+', '+', '+']) none = (.register, [])
    ∧ interp_step ⟨[], []⟩
        (interp_step ⟨[], []⟩ .noneOp (.line ['+', '+', '+']) none).1
        (.line ['+', '+', '+']) none = (.register, []) :=
  mode_token_spec ⟨[], []⟩ .noneOp none ['+', '+', '+'] .register (by decide)

/-- C9: when the receive timeout elapses the interpreter resets the mode
to `None` without making any resolver or engine call (a no-op when the
mode is already `None`), and the timeout window is 120 time units. -/
theorem idle_timeout_spec (st : Store) (op : ScanOp) (reg : Option Item) :
    interp_step st op .timeout reg = (.noneOp, []) ∧ IDLE_TIMEOUT = 120 :=
  ⟨rfl, rfl⟩

/-! ### Decimal round trip (C10) -/

theorem natDigitsRev_eq (n : Nat) :
    natDigitsRev n = if n = 0 then [] else digitChar (n % 10) :: natDigitsRev (n / 10) := by
  rw [natDigitsRev]
  by_cases h : n = 0
  · rw [dif_pos h, if_pos h]
  · rw [dif_neg h, if_neg h]

theorem digitChar_digit (d : Nat) (h : d < 10) :
    '0' ≤ digitChar d ∧ digitChar d ≤ '9' := by
  interval_cases d <;> exact ⟨by decide, by decide⟩

theorem val_digitChar (d : Nat) (h : d < 10) : (digitChar d).toNat - 48 = d := by
  interval_cases d <;> decide

theorem natDigitsRev_mem (n : Nat) :
    ∀ c ∈ natDigitsRev n, ∃ d, d < 10 ∧ c = digitChar d := by
  induction n using Nat.strong_induction_on with
  | _ n ih =>
    intro c hc
    by_cases h : n = 0
    · rw [natDigitsRev_eq, if_pos h] at hc
      simp at hc
    · rw [natDigitsRev_eq, if_neg h] at hc
      rcases List.mem_cons.1 hc with rfl | hc
      · exact ⟨n % 10, Nat.mod_lt _ (by norm_num), rfl⟩
      · exact ih (n / 10) (Nat.div_lt_self (Nat.pos_of_ne_zero h) (by norm_num)) c hc

theorem natToChars_digits (n : Nat) :
    ∀ c ∈ natToChars n, '0' ≤ c ∧ c ≤ '9' := by
  intro c hc
  unfold natToChars at hc
  by_cases h : n = 0
  · rw [if_pos h] at hc
    simp at hc
    subst hc
    exact ⟨by decide, by decide⟩
  · rw [if_neg h] at hc
    rw [List.mem_reverse] at hc
    rcases natDigitsRev_mem n c hc with ⟨d, hd, rfl⟩
    exact digitChar_digit d hd

theorem natToChars_ne_nil (n : Nat) : natToChars n ≠ [] := by
  unfold natToChars
  by_cases h : n = 0
  · simp [h]
  · rw [if_neg h, natDigitsRev_eq, if_neg h]
    simp

theorem parseDigits_go (l : List Char) (hl : ∀ c ∈ l, '0' ≤ c ∧ c ≤ '9') :
    ∀ acc : Nat, l.foldl parseStep (some acc)
      = some (l.foldl (fun a c => a * 10 + (c.toNat - 48)) acc) := by
  induction l with
  | nil => intro acc; rfl
  | cons c cs ih =>
    intro acc
    have hc := hl c (List.mem_cons_self _ _)
    have hstep : parseStep (some acc) c = some (acc * 10 + (c.toNat - 48)) := by
      unfold parseStep digitVal
      rw [if_pos hc]
    rw [List.foldl_cons, hstep, List.foldl_cons]
    exact ih (fun x hx => hl x (List.mem_cons_of_mem _ hx)) _

theorem val_natDigitsRev (n : Nat) :
    ∀ acc : Nat, (natDigitsRev n).reverse.foldl (fun a c => a * 10 + (c.toNat - 48)) acc
      = acc * 10 ^ (natDigitsRev n).length + n := by
  induction n using Nat.strong_induction_on with
  | _ n ih =>
    intro acc
    by_cases h : n = 0
    · rw [natDigitsRev_eq, if_pos h]
      simp [h]
    · rw [natDigitsRev_eq, if_neg h]
      rw [List.reverse_cons, List.foldl_append]
      rw [ih (n / 10) (Nat.div_lt_self (Nat.pos_of_ne_zero h) (by norm_num)) acc]
      simp only [List.foldl_cons, List.foldl_nil, List.length_cons]
      rw [val_digitChar (n % 10) (Nat.mod_lt _ (by norm_num))]
      have hdm : n / 10 * 10 + n % 10 = n := Nat.div_add_mod n 10 ▸ by omega
      calc (acc * 10 ^ (natDigitsRev (n / 10)).length + n / 10) * 10 + n % 10
          = acc * (10 ^ (natDigitsRev (n / 10)).length * 10) + (n / 10 * 10 + n % 10) := by ring
        _ = acc * 10 ^ ((natDigitsRev (n / 10)).length + 1) + n := by rw [hdm, pow_succ]

theorem parseDigits_natToChars (n : Nat) : parseDigits (natToChars n) = some n := by
  by_cases h : n = 0
  · subst h; decide
  · unfold natToChars
    rw [if_neg h]
    unfold parseDigits
    have hne : ¬ ((natDigitsRev n).reverse = []) := by
      rw [natDigitsRev_eq, if_neg h]
      simp
    rw [if_neg hne]
    have hdig : ∀ c ∈ (natDigitsRev n).reverse, '0' ≤ c ∧ c ≤ '9' := by
      intro c hc
      rw [List.mem_reverse] at hc
      rcases natDigitsRev_mem n c hc with ⟨d, hd, rfl⟩
      exact digitChar_digit d hd
    rw [parseDigits_go _ hdig 0, val_natDigitsRev n 0]
    simp

theorem intToChars_mem (i : Int) :
    ∀ c ∈ intToChars i, c = '-' ∨ ('0' ≤ c ∧ c ≤ '9') := by
  unfold intToChars
  by_cases h : i < 0
  · rw [if_pos h]
    intro c hc
    rcases List.mem_cons.1 hc with rfl | hc
    · exact Or.inl rfl
    · exact Or.inr (natToChars_digits _ c hc)
  · rw [if_neg h]
    intro c hc
    exact Or.inr (natToChars_digits _ c hc)

theorem intToChars_cons (i : Int) :
    ∃ c cs, intToChars i = c :: cs := by
  unfold intToChars
  by_cases h : i < 0
  · rw [if_pos h]
    exact ⟨'-', natToChars i.natAbs, rfl⟩
  · rw [if_neg h]
    rcases List.exists_cons_of_ne_nil (natToChars_ne_nil i.toNat) with ⟨c, cs, hc⟩
    exact ⟨c, cs, hc⟩

theorem parseI32_intToChars (i : Int) (h1 : i32Min ≤ i) (h2 : i ≤ i32Max) :
    parseI32 (intToChars i) = some i := by
  by_cases hneg : i < 0
  · unfold intToChars
    rw [if_pos hneg]
    have hsg : parseSigned ('-' :: natToChars i.natAbs)
        = (parseDigits (natToChars i.natAbs)).map fun n => - Int.ofNat n := by
      show (if ('-' : Char) = '+' then (parseDigits (natToChars i.natAbs)).map Int.ofNat
            else if ('-' : Char) = '-' then
              (parseDigits (natToChars i.natAbs)).map fun n => - Int.ofNat n
            else (parseDigits ('-' :: natToChars i.natAbs)).map Int.ofNat) = _
      rw [if_neg (by decide : ¬ (('-' : Char) = '+')), if_pos rfl]
    have habs : - Int.ofNat i.natAbs = i := by
      show -((i.natAbs : Int)) = i
      omega
    unfold parseI32
    rw [hsg, parseDigits_natToChars]
    simp only [Option.map_some']
    rw [habs, if_pos ⟨h1, h2⟩]
  · unfold intToChars
    rw [if_neg hneg]
    rcases List.exists_cons_of_ne_nil (natToChars_ne_nil i.toNat) with ⟨c, cs, hc⟩
    have hcd : '0' ≤ c ∧ c ≤ '9' := natToChars_digits i.toNat c (hc ▸ List.mem_cons_self c cs)
    have hcp : ¬ (c = '+') := by
      intro h
      rw [h] at hcd
      exact absurd hcd (by decide)
    have hcm : ¬ (c = '-') := by
      intro h
      rw [h] at hcd
      exact absurd hcd (by decide)
    have hparse : parseDigits (c :: cs) = some i.toNat := hc ▸ parseDigits_natToChars i.toNat
    have htn : ((i.toNat : Nat) : Int) = i := Int.toNat_of_nonneg (not_lt.1 hneg)
    have hsg : parseSigned (c :: cs) = (parseDigits (c :: cs)).map Int.ofNat := by
      show (if c = '+' then (parseDigits cs).map Int.ofNat
            else if c = '-' then (parseDigits cs).map fun n => - Int.ofNat n
            else (parseDigits (c :: cs)).map Int.ofNat) = _
      rw [if_neg hcp, if_neg hcm]
    rw [hc]
    unfold parseI32
    rw [hsg, hparse]
    simp only [Option.map_some']
    have : Int.ofNat i.toNat = i := htn
    rw [this, if_pos ⟨h1, h2⟩]

theorem intToChars_not_delim (i : Int) :
    ∀ c ∈ intToChars i, c ≠ '|' ∧ c ≠ '~' ∧ c ≠ '+' := by
  intro c hc
  rcases intToChars_mem i c hc with rfl | hd
  · exact ⟨by decide, by decide, by decide⟩
  · refine ⟨?_, ?_, ?_⟩ <;> intro h <;> rw [h] at hd <;> exact absurd hd (by decide)

theorem parse_custom_code_labelCode (a b : Int)
    (ha1 : i32Min ≤ a) (ha2 : a ≤ i32Max) (hb1 : i32Min ≤ b) (hb2 : b ≤ i32Max) :
    parse_custom_code (labelCode a b) = some (a, b) := by
  have hpa := parseI32_intToChars a ha1 ha2
  have hpb := parseI32_intToChars b hb1 hb2
  have hmema : ∀ c ∈ intToChars a, (fun c => decide (c ≠ '|')) c = true := by
    intro c hc
    exact decide_eq_true (intToChars_not_delim a c hc).1
  have hmemb : ∀ c ∈ intToChars b, (fun c => decide (c ≠ '~')) c = true := by
    intro c hc
    exact decide_eq_true (intToChars_not_delim b c hc).2.1
  have h1 := takeWhile_append_of_break (fun c => decide (c ≠ '|')) (intToChars a) '|'
    (intToChars b ++ ['~']) hmema (by decide)
  have h2 := takeWhile_append_of_break (fun c => decide (c ≠ '~')) (intToChars b) '~'
    [] hmemb (by decide)
  show parse_custom_code ('~' :: (intToChars a ++ '|' :: (intToChars b ++ ['~']))) = some (a, b)
  simp only [parse_custom_code, h1.1, h1.2, hpa, h2.1, h2.2, hpb, Option.map_some']

theorem scan_op_from_str_labelCode (a b : Int) :
    scan_op_from_str (labelCode a b) = none := by
  unfold scan_op_from_str labelCode
  simp

theorem labelCode_ne_custom_token (a b : Int) :
    labelCode a b ≠ ['~', '+', '~'] := by
  unfold labelCode
  intro h
  injection h with _ h2
  obtain ⟨c, cs, hcc⟩ := intToChars_cons a
  rw [hcc, List.cons_append] at h2
  injection h2 with h3 _
  have hmem := intToChars_not_delim a c (hcc ▸ List.mem_cons_self c cs)
  exact hmem.2.2 h3

/-- C10: the barcode content printed on a custom-item label,
`"~" ++ itemId ++ "|" ++ unitId ++ "~"`, parses back under the
interpreter's removal-reference pattern to exactly the pair
`(itemId, unitId)`, and feeding the printed label to the interpreter
dispatches `removeUnit(itemId, unitId)` on exactly that unit (after the
item-by-id lookup), regardless of the current mode. -/
theorem label_roundtrip_spec (st : Store) (op : ScanOp) (reg : Option Item)
    (a b : Int) (it : Item)
    (ha1 : i32Min ≤ a) (ha2 : a ≤ i32Max) (hb1 : i32Min ≤ b) (hb2 : b ≤ i32Max)
    (hit : query_item_by_id st a = some it) :
    parse_custom_code (labelCode a b) = some (a, b)
    ∧ interp_step st op (.line (labelCode a b)) reg
        = (op, [.queryItemById a, .engineRemove a (some b)]) := by
  have hp := parse_custom_code_labelCode a b ha1 ha2 hb1 hb2
  refine ⟨hp, ?_⟩
  simp only [interp_step, scan_op_from_str_labelCode, labelCode_ne_custom_token a b,
    if_false, hp, hit]

/-- Witness for C10: the label for unit 12 of item 3 round-trips and
dispatches the removal of exactly that unit. -/
theorem label_roundtrip_spec_w :
    parse_custom_code (labelCode 3 12) = some (3, 12)
    ∧ interp_step ⟨[⟨3, "Jam", .custom, none⟩], []⟩ .noneOp (.line (labelCode 3 12)) none
        = (.noneOp, [.queryItemById 3, .engineRemove 3 (some 12)]) :=
  label_roundtrip_spec ⟨[⟨3, "Jam", .custom, none⟩], []⟩ .noneOp none 3 12
    ⟨3, "Jam", .custom, none⟩ (by decide) (by decide) (by decide) (by decide) (by decide)

end Larder
